import Mathlib

/-!
Verification of the chunking / ranking / generation core of the multilingual
RAG system (`src/ingestion/chunker.py`, `src/retrieval/hybrid_search.py`,
`src/retrieval/reranker.py`, `src/core/language.py`, `src/core/models.py`,
`src/generation/generator.py`, `src/generation/prompts.py`,
`src/generation/citations.py`, `src/config/settings.py`).

Python strings are modelled as `List Char` (`Str`) so that slicing, `len`,
`split`, and `strip` coincide with Python's character-based semantics.
Non-deterministic `uuid.uuid4()` draws are modelled by threading a fresh-value
counter; wall-clock timestamps are not modelled.  Fallible constructions
(pydantic validation, Python exceptions) are modelled with `Option`.
-/

namespace RagSpec

/-- Python strings, modelled as character lists (Python indexes by character). -/
abbrev Str := List Char

/-- Whitespace recognised by Python's default `str.strip()` (ASCII subset;
the documents handled by the repo contain no exotic unicode spaces). -/
def isPySpace (c : Char) : Bool :=
  c == ' ' || c == '\t' || c == '\n' || c == '\r' || c == '\x0b' || c == '\x0c'

/-- Python `text.strip()`: drop leading and trailing whitespace. -/
def pyStrip (t : Str) : Str :=
  ((t.dropWhile isPySpace).reverse.dropWhile isPySpace).reverse

/-- Python `sep in text` (substring containment, `sep` possibly empty). -/
def containsSubstr (sep : Str) : Str → Bool
  | [] => sep.isEmpty
  | c :: rest => sep.isPrefixOf (c :: rest) || containsSubstr sep rest

/-- Worker for `pySplit`: splits on the non-empty separator `s :: ss`,
scanning left to right.  The `fuel` argument is a structural-recursion
device only; every step consumes at least one character, so
`fuel = text.length + 1` (as passed by `pySplit`) never runs out. -/
def splitOnFuel (s : Char) (ss : Str) : Nat → Str → List Str
  | 0, t => [t]
  | _ + 1, [] => [[]]
  | fuel + 1, c :: rest =>
    if (s :: ss).isPrefixOf (c :: rest) then
      [] :: splitOnFuel s ss fuel (rest.drop ss.length)
    else
      match splitOnFuel s ss fuel rest with
      | [] => [[c]]
      | p :: ps => (c :: p) :: ps

/-- Python `text.split(sep)`.  The source never calls `split` with an empty
separator (guarded by `if separator and ...`); the `[]` case is a harmless
total-function default. -/
def pySplit (sep text : Str) : List Str :=
  match sep with
  | [] => [text]
  | s :: ss => splitOnFuel s ss (text.length + 1) text

/-- One iteration state of `TextChunker._force_split`'s `while` loop:
`chunk = text[start:start+chunk_size]`, appended stripped, empties dropped,
`start = end - overlap`.  `fuel` models the number of loop iterations still
allowed; `none` means the loop did not finish within `fuel` iterations
(the Python loop runs unboundedly). -/
def forceSplitGo (chunkSize overlap : Nat) (text : Str) : Nat → Nat → Option (List Str)
  | 0, _ => none
  | fuel + 1, start =>
    if start < text.length then
      let piece := pyStrip ((text.drop start).take chunkSize)
      match forceSplitGo chunkSize overlap text fuel (start + chunkSize - overlap) with
      | none => none
      | some rest => some (if piece.isEmpty then rest else piece :: rest)
    else
      some []

/-- Model of `TextChunker._force_split`: when `overlap < chunk_size` the window start
advances by at least one per iteration, so `text.length + 1` iterations always
suffice (proved below); the `getD []` default is then never taken. -/
def forceSplit (chunkSize overlap : Nat) (text : Str) : List Str :=
  (forceSplitGo chunkSize overlap text (text.length + 1) 0).getD []

/-- The body of `TextChunker._add_overlap`'s loop for `i >= 1`:
`overlap_text = prev_chunk[-overlap:] if len(prev_chunk) > overlap else prev_chunk`,
`new_chunk = overlap_text + " " + chunk`, truncated to `chunk_size` if too long. -/
def overlapCombine (chunkSize overlap : Nat) (prev cur : Str) : Str :=
  let ovText := if overlap < prev.length then prev.drop (prev.length - overlap) else prev
  let combined := ovText ++ ' ' :: cur
  if chunkSize < combined.length then combined.take chunkSize else combined

/-- The tail of `TextChunker._add_overlap`'s loop (`i >= 1`): each segment is
combined with the *pre-overlap* previous segment `prev`. -/
def addOverlapGo (chunkSize overlap : Nat) : Str → List Str → List Str
  | _, [] => []
  | prev, c :: rest =>
    overlapCombine chunkSize overlap prev c :: addOverlapGo chunkSize overlap c rest

/-- Model of `TextChunker._add_overlap`: unchanged when at most one chunk or zero
overlap; otherwise the first chunk passes through and every later chunk gets
the previous pre-overlap chunk's tail prepended. -/
def addOverlap (chunkSize overlap : Nat) (chunks : List Str) : List Str :=
  if chunks.length ≤ 1 || overlap == 0 then chunks
  else
    match chunks with
    | [] => chunks
    | c :: rest => c :: addOverlapGo chunkSize overlap c rest

/-- The accumulation loop of `TextChunker._split_with_separator`:
greedily grow `current`, flush `current.strip()` when the next part does not
fit, and recursively split (via `recur`, instantiated with the remaining
separators) any single part longer than `chunk_size`. -/
def splitLoop (recur : Str → List Str) (chunkSize : Nat) (sep : Str) :
    List Str → Str → List Str
  | [], current => if (pyStrip current).isEmpty then [] else [pyStrip current]
  | part :: rest, current =>
    let test := if current.isEmpty then part else current ++ sep ++ part
    if test.length ≤ chunkSize then
      splitLoop recur chunkSize sep rest test
    else
      (if current.isEmpty then [] else [pyStrip current]) ++
        (if chunkSize < part.length then
          recur part ++ splitLoop recur chunkSize sep rest []
        else
          splitLoop recur chunkSize sep rest part)

/-- Model of `TextChunker._recursive_split` together with `_split_with_separator`.
The loop `for separator in separators: if separator and separator in text`
is realised structurally: a non-matching head separator is skipped, a
matching one is used via `splitLoop` with the strictly later separators
(`separators[separators.index(separator)+1:]`, here `rest`) for recursion,
and when the list is exhausted the character fallback `_force_split` runs. -/
def recursiveSplit (chunkSize overlap : Nat) : List Str → Str → List Str
  | [], text =>
    if text.length ≤ chunkSize then
      if (pyStrip text).isEmpty then [] else [pyStrip text]
    else forceSplit chunkSize overlap text
  | sep :: rest, text =>
    if text.length ≤ chunkSize then
      if (pyStrip text).isEmpty then [] else [pyStrip text]
    else if !sep.isEmpty && containsSubstr sep text then
      addOverlap chunkSize overlap
        (splitLoop (fun part => recursiveSplit chunkSize overlap rest part)
          chunkSize sep (pySplit sep text) [])
    else
      recursiveSplit chunkSize overlap rest text

/-- The separator preference list hard-coded in `TextChunker._split_text`. -/
def chunkerSeparators : List Str :=
  [['\n', '\n'], ['\n'], ['.', ' '], ['،', ' '], [' '], []]

/-- Model of `TextChunker._split_text`. -/
def splitText (chunkSize overlap : Nat) (text : Str) : List Str :=
  recursiveSplit chunkSize overlap chunkerSeparators text

/-- Modelled from the spec (§4.1, for comparison with the code): the
*pre-overlap* segmentation — identical separator descent, but with no overlap
pass inside the recursion.  Used to express the spec's reading that the
overlap pass runs exactly once, after segmentation is complete. -/
def recursiveSplitNoOverlap (chunkSize overlap : Nat) : List Str → Str → List Str
  | [], text =>
    if text.length ≤ chunkSize then
      if (pyStrip text).isEmpty then [] else [pyStrip text]
    else forceSplit chunkSize overlap text
  | sep :: rest, text =>
    if text.length ≤ chunkSize then
      if (pyStrip text).isEmpty then [] else [pyStrip text]
    else if !sep.isEmpty && containsSubstr sep text then
      splitLoop (fun part => recursiveSplitNoOverlap chunkSize overlap rest part)
        chunkSize sep (pySplit sep text) []
    else
      recursiveSplitNoOverlap chunkSize overlap rest text

/-- Modelled from the spec (§4.1): full segmentation followed by a single
overlap pass applied once at the end. -/
def splitTextOnceOverlap (chunkSize overlap : Nat) (text : Str) : List Str :=
  addOverlap chunkSize overlap
    (recursiveSplitNoOverlap chunkSize overlap chunkerSeparators text)

/-- Convenience: a Python string literal as a `Str`. -/
def pyStr (s : String) : Str := s.toList

/-! ### Length bounds on produced segments (claim C1) -/

theorem pyStrip_length_le (t : Str) : (pyStrip t).length ≤ t.length := by
  have h1 : (t.dropWhile isPySpace).length ≤ t.length :=
    (List.dropWhile_sublist isPySpace).length_le
  have h2 : ((t.dropWhile isPySpace).reverse.dropWhile isPySpace).length ≤
      (t.dropWhile isPySpace).reverse.length :=
    (List.dropWhile_sublist isPySpace).length_le
  simp only [pyStrip, List.length_reverse] at *
  omega

theorem forceSplitGo_length_le (cs ov : Nat) (text : Str) :
    ∀ fuel start l, forceSplitGo cs ov text fuel start = some l →
      ∀ c ∈ l, c.length ≤ cs := by
  intro fuel
  induction fuel with
  | zero => intro start l h; simp [forceSplitGo] at h
  | succ n ih =>
    intro start l h c hc
    rw [forceSplitGo] at h
    split at h
    · cases h' : forceSplitGo cs ov text n (start + cs - ov) with
      | none => rw [h'] at h; simp at h
      | some rest =>
        rw [h'] at h
        simp only [Option.some.injEq] at h
        subst h
        have hrest : ∀ c ∈ rest, c.length ≤ cs := ih _ _ h'
        have hpiece : (pyStrip ((text.drop start).take cs)).length ≤ cs := by
          refine le_trans (pyStrip_length_le _) ?_
          simp [List.length_take]
        split at hc
        · exact hrest c hc
        · rcases List.mem_cons.1 hc with rfl | hmem
          · exact hpiece
          · exact hrest c hmem
    · simp only [Option.some.injEq] at h
      subst h
      simp at hc

theorem forceSplit_length_le (cs ov : Nat) (text : Str) :
    ∀ c ∈ forceSplit cs ov text, c.length ≤ cs := by
  intro c hc
  unfold forceSplit at hc
  cases h : forceSplitGo cs ov text (text.length + 1) 0 with
  | none => rw [h] at hc; simp at hc
  | some l => rw [h] at hc; exact forceSplitGo_length_le cs ov text _ _ _ h c hc

theorem overlapCombine_length_le (cs ov : Nat) (prev cur : Str) :
    (overlapCombine cs ov prev cur).length ≤ cs := by
  have key : ∀ l : Str, (if cs < l.length then l.take cs else l).length ≤ cs := by
    intro l
    split
    · simp only [List.length_take]
      omega
    · omega
  simp only [overlapCombine]
  exact key _

theorem addOverlapGo_length_le (cs ov : Nat) :
    ∀ chunks prev c, c ∈ addOverlapGo cs ov prev chunks → c.length ≤ cs := by
  intro chunks
  induction chunks with
  | nil => intro prev c hc; simp [addOverlapGo] at hc
  | cons x rest ih =>
    intro prev c hc
    simp only [addOverlapGo] at hc
    rcases List.mem_cons.1 hc with rfl | hmem
    · exact overlapCombine_length_le cs ov prev x
    · exact ih x c hmem

theorem addOverlap_length_le (cs ov : Nat) (chunks : List Str)
    (h : ∀ c ∈ chunks, c.length ≤ cs) :
    ∀ c ∈ addOverlap cs ov chunks, c.length ≤ cs := by
  intro c hc
  unfold addOverlap at hc
  split at hc
  · exact h c hc
  · match chunks, hc with
    | x :: rest, hc =>
      rcases List.mem_cons.1 hc with rfl | hmem
      · exact h c (List.mem_cons_self _ _)
      · exact addOverlapGo_length_le cs ov rest x c hmem

theorem splitLoop_length_le (recur : Str → List Str) (cs : Nat) (sep : Str)
    (hrec : ∀ part c, c ∈ recur part → c.length ≤ cs) :
    ∀ parts current, current.length ≤ cs →
      ∀ c ∈ splitLoop recur cs sep parts current, c.length ≤ cs := by
  intro parts
  induction parts with
  | nil =>
    intro current hcur c hc
    simp only [splitLoop] at hc
    split at hc
    · simp at hc
    · rcases List.mem_singleton.1 hc with rfl
      exact le_trans (pyStrip_length_le _) hcur
  | cons part rest ih =>
    intro current hcur c hc
    simp only [splitLoop] at hc
    split at hc
    · -- current is empty: test = part, nothing to flush
      split at hc
      · rename_i hfit
        exact ih part hfit c hc
      · rw [List.nil_append] at hc
        split at hc
        · rcases List.mem_append.1 hc with h1 | h2
          · exact hrec part c h1
          · exact ih [] (Nat.zero_le _) c h2
        · rename_i hnofit hsmall
          exact ih part (by omega) c hc
    · -- current non-empty: test = current ++ sep ++ part
      split at hc
      · rename_i hfit
        exact ih _ hfit c hc
      · rcases List.mem_append.1 hc with hflush | hrest
        · rcases List.mem_singleton.1 hflush with rfl
          exact le_trans (pyStrip_length_le _) hcur
        · split at hrest
          · rcases List.mem_append.1 hrest with h1 | h2
            · exact hrec part c h1
            · exact ih [] (Nat.zero_le _) c h2
          · rename_i hnofit hsmall
            exact ih part (by omega) c hrest

theorem recursiveSplit_length_le (cs ov : Nat) :
    ∀ seps text c, c ∈ recursiveSplit cs ov seps text → c.length ≤ cs := by
  intro seps
  induction seps with
  | nil =>
    intro text c hc
    simp only [recursiveSplit] at hc
    split at hc
    · split at hc
      · simp at hc
      · rcases List.mem_singleton.1 hc with rfl
        refine le_trans (pyStrip_length_le _) ?_
        omega
    · exact forceSplit_length_le cs ov text c hc
  | cons sep rest ih =>
    intro text c hc
    simp only [recursiveSplit] at hc
    split at hc
    · split at hc
      · simp at hc
      · rcases List.mem_singleton.1 hc with rfl
        refine le_trans (pyStrip_length_le _) ?_
        omega
    · split at hc
      · refine addOverlap_length_le cs ov _ ?_ c hc
        intro d hd
        exact splitLoop_length_le _ cs sep (fun part e he => ih part e he)
          (pySplit sep text) [] (Nat.zero_le _) d hd
      · exact ih text c hc

/-- C1: for every input text and every configuration with
`max_size > overlap >= 0`, every segment produced by `_split_text` has length
at most `max_size`, including segments from the `_force_split` character
fallback and segments rebuilt by the `_add_overlap` pass. -/
theorem c1_splitText_segments_le (chunkSize overlap : Nat) (text : Str)
    (hov : overlap < chunkSize) :
    ∀ c ∈ splitText chunkSize overlap text, c.length ≤ chunkSize := by
  intro c hc
  exact recursiveSplit_length_le chunkSize overlap chunkerSeparators text c hc

theorem c1_splitText_segments_le_witness :
    2 < 5 ∧ pyStr "cd cd" ∈ splitText 5 2 (pyStr "ab cd ef\n\nxy") ∧
      (pyStr "cd cd").length ≤ 5 :=
  ⟨by decide, by decide,
    c1_splitText_segments_le 5 2 (pyStr "ab cd ef\n\nxy") (by decide)
      (pyStr "cd cd") (by decide)⟩

/-! ### Termination of the splitting procedure (claim C4) -/

theorem forceSplitGo_isSome (cs ov : Nat) (hov : ov < cs) (text : Str) :
    ∀ fuel start, text.length - start < fuel →
      (forceSplitGo cs ov text fuel start).isSome = true := by
  intro fuel
  induction fuel with
  | zero => intro start h; omega
  | succ n ih =>
    intro start h
    rw [forceSplitGo]
    split
    · have hnext : text.length - (start + cs - ov) < n := by omega
      have hs := ih (start + cs - ov) hnext
      cases h' : forceSplitGo cs ov text n (start + cs - ov) with
      | none => rw [h'] at hs; simp at hs
      | some rest => simp
    · simp

/-- C4: with `0 <= overlap < max_size` the splitting procedure terminates.
The window fallback advances its start by `max_size - overlap > 0` each
iteration, so `text.length + 1` iterations always complete (`isSome`), and a
matched separator recurses through `splitLoop` using only the strictly later
separators `rest`. -/
theorem c4_split_terminates (chunkSize overlap : Nat) (hov : overlap < chunkSize) :
    0 < chunkSize - overlap ∧
    (∀ text : Str,
      (forceSplitGo chunkSize overlap text (text.length + 1) 0).isSome = true) ∧
    (∀ (sep : Str) (rest : List Str) (text : Str),
      chunkSize < text.length → sep ≠ [] → containsSubstr sep text = true →
      recursiveSplit chunkSize overlap (sep :: rest) text =
        addOverlap chunkSize overlap
          (splitLoop (fun part => recursiveSplit chunkSize overlap rest part)
            chunkSize sep (pySplit sep text) [])) := by
  refine ⟨by omega,
    fun text => forceSplitGo_isSome chunkSize overlap hov text _ 0 (by omega), ?_⟩
  intro sep rest text h1 h2 h3
  rw [recursiveSplit]
  rw [if_neg (by omega), if_pos]
  simp [h2, h3]

theorem c4_split_terminates_witness :
    2 < 5 ∧
      (forceSplitGo 5 2 (pyStr "wxyz!abcdefg") ((pyStr "wxyz!abcdefg").length + 1) 0).isSome
        = true :=
  ⟨by decide, (c4_split_terminates 5 2 (by decide)).2.1 (pyStr "wxyz!abcdefg")⟩

/-! ### The overlap pass (claim C2) -/

/-- C2 counterexample: the overlap pass is *not* applied exactly once after
segmentation.  `_split_with_separator` ends every level of the recursion with
`_add_overlap`, so a recursive sub-split's segments receive overlap twice:
on `"ab cd ef\n\nxy"` with `max_size = 5`, `overlap = 2` the code yields the
middle segment `"cd cd"` (the second application destroys the `"ef"` content),
while segmentation followed by a single overlap pass yields `"cd ef"`. -/
theorem c2_overlap_not_once_counterexample :
    splitText 5 2 (pyStr "ab cd ef\n\nxy") =
        [pyStr "ab cd", pyStr "cd cd", pyStr "ef xy"] ∧
    splitTextOnceOverlap 5 2 (pyStr "ab cd ef\n\nxy") =
        [pyStr "ab cd", pyStr "cd ef", pyStr "ef xy"] ∧
    splitText 5 2 (pyStr "ab cd ef\n\nxy") ≠
      splitTextOnceOverlap 5 2 (pyStr "ab cd ef\n\nxy") :=
  ⟨by decide, by decide, by decide⟩

theorem addOverlapGo_length_eq (cs ov : Nat) :
    ∀ (chunks : List Str) (prev : Str),
      (addOverlapGo cs ov prev chunks).length = chunks.length := by
  intro chunks
  induction chunks with
  | nil => intro prev; rfl
  | cons x rest ih => intro prev; simp [addOverlapGo, ih x]

theorem addOverlapGo_getElem (cs ov : Nat) :
    ∀ (chunks : List Str) (prev : Str) (i : Nat) (prevEl cur : Str),
      (prev :: chunks)[i]? = some prevEl → chunks[i]? = some cur →
      (addOverlapGo cs ov prev chunks)[i]? =
        some (overlapCombine cs ov prevEl cur) := by
  intro chunks
  induction chunks with
  | nil => intro prev i prevEl cur _ hcur; simp at hcur
  | cons x rest ih =>
    intro prev i prevEl cur hprev hcur
    cases i with
    | zero =>
      simp only [List.getElem?_cons_zero, Option.some.injEq] at hprev hcur
      subst hprev; subst hcur
      simp [addOverlapGo]
    | succ j =>
      simp only [List.getElem?_cons_succ] at hprev hcur
      simp only [addOverlapGo, List.getElem?_cons_succ]
      exact ih x j prevEl cur hprev hcur

/-- C2 (amended): the overlap pass runs at the end of *every* separator-split
call, including recursive ones — not exactly once after segmentation.  Each
run returns the list unchanged when it has at most one segment or
`overlap = 0`; otherwise it keeps the length, leaves the first segment
unprefixed, and maps every later segment `chunks[i+1]` to the combination
with its *pre-overlap* predecessor `chunks[i]` (last `overlap` characters,
joined by one space, re-truncated to `max_size`). -/
theorem c2_addOverlap_each_pass (chunkSize overlap : Nat) (chunks : List Str) :
    (chunks.length ≤ 1 ∨ overlap = 0 → addOverlap chunkSize overlap chunks = chunks) ∧
    (2 ≤ chunks.length → overlap ≠ 0 →
      (addOverlap chunkSize overlap chunks).length = chunks.length ∧
      (addOverlap chunkSize overlap chunks).head? = chunks.head? ∧
      ∀ i prev cur, chunks[i]? = some prev → chunks[i + 1]? = some cur →
        (addOverlap chunkSize overlap chunks)[i + 1]? =
          some (overlapCombine chunkSize overlap prev cur)) := by
  constructor
  · intro h
    unfold addOverlap
    rw [if_pos]
    simp only [Bool.or_eq_true, decide_eq_true_eq, beq_iff_eq]
    omega
  · intro hlen hov
    have hcond : ¬((chunks.length ≤ 1 || overlap == 0) = true) := by
      simp only [Bool.or_eq_true, decide_eq_true_eq, beq_iff_eq]
      omega
    match chunks, hlen with
    | x :: rest, _ =>
      unfold addOverlap
      rw [if_neg hcond]
      refine ⟨by simp [addOverlapGo_length_eq], by simp, ?_⟩
      intro i prev cur hprev hcur
      simp only [List.getElem?_cons_succ] at hcur ⊢
      exact addOverlapGo_getElem chunkSize overlap rest x i prev cur hprev hcur

theorem c2_addOverlap_each_pass_witness :
    (addOverlap 5 2 [pyStr "abc", pyStr "de"])[1]? =
      some (overlapCombine 5 2 (pyStr "abc") (pyStr "de")) :=
  ((c2_addOverlap_each_pass 5 2 [pyStr "abc", pyStr "de"]).2 (by decide)
    (by decide)).2.2 0 (pyStr "abc") (pyStr "de") (by decide) (by decide)

/-! ### Language detection (`src/core/language.py`, claim C8) -/

/-- Model of `Language` enum from `src/core/models.py`. -/
inductive Language where
  | english
  | arabic
  | unknown
deriving DecidableEq, Repr

/-- Model of `LanguageDetector.detect`.  The external `langdetect.detect` call is the
oracle `model` returning a language code string.  The short-input check is
`if not text or len(text.strip()) < 3` — note it measures the length of the
*stripped* text (leading/trailing whitespace removed), not the number of
non-whitespace characters. -/
def LanguageDetector.detect (model : Str → String) (text : Str) : Language :=
  if text.isEmpty || (pyStrip text).length < 3 then Language.unknown
  else
    let detected := model text
    if detected = "en" then Language.english
    else if detected = "ar" then Language.arabic
    else Language.english

/-- Number of non-whitespace characters of a Python string (the quantity the
spec's short-input rule speaks about). -/
def countNonWs (t : Str) : Nat := (t.filter (fun c => !isPySpace c)).length

/-- C8 counterexample: `"a b"` has only 2 non-whitespace characters, yet its
stripped length is 3, so `detect` *does* invoke the detection model and
returns whatever the model says — not UNKNOWN. -/
theorem c8_nonwhitespace_rule_counterexample :
    countNonWs (pyStr "a b") < 3 ∧
    LanguageDetector.detect (fun _ => "ar") (pyStr "a b") = Language.arabic ∧
    LanguageDetector.detect (fun _ => "fr") (pyStr "a b") = Language.english :=
  ⟨by decide, by decide, by decide⟩

/-- C8 (amended): every input whose *stripped* length is below 3 — in
particular every input of at most 2 characters — classifies as UNKNOWN, for
every detection model (so the model is never consulted). -/
theorem c8_detect_short_unknown :
    (∀ (model : Str → String) (text : Str), (pyStrip text).length < 3 →
      LanguageDetector.detect model text = Language.unknown) ∧
    (∀ (model : Str → String) (text : Str), text.length ≤ 2 →
      LanguageDetector.detect model text = Language.unknown) := by
  have main : ∀ (model : Str → String) (text : Str), (pyStrip text).length < 3 →
      LanguageDetector.detect model text = Language.unknown := by
    intro model text h
    unfold LanguageDetector.detect
    rw [if_pos]
    simp [h]
  refine ⟨main, fun model text h => main model text ?_⟩
  have := pyStrip_length_le text
  omega

theorem c8_detect_short_unknown_witness :
    (pyStrip (pyStr "ab")).length < 3 ∧
      LanguageDetector.detect (fun _ => "en") (pyStr "ab") = Language.unknown :=
  ⟨by decide, c8_detect_short_unknown.1 (fun _ => "en") (pyStr "ab") (by decide)⟩

/-! ### Chunker construction and settings validation (`__init__`,
`Settings.validate_settings`, claim C5) -/

/-- Python's `x or default` coalescing used in `TextChunker.__init__`
(`None` and `0` both fall back to the settings value). -/
def resolveOr (dflt : Nat) : Option Nat → Nat
  | none => dflt
  | some v => if v = 0 then dflt else v

/-- The state stored by `TextChunker.__init__`. -/
structure TextChunkerState where
  chunkSize : Nat
  overlap : Nat
deriving DecidableEq, Repr

/-- Model of `TextChunker.__init__`: stores the sizes after `or`-coalescing with the
settings defaults.  It performs NO validation whatsoever — in particular it
does not reject `overlap >= chunk_size`. -/
def TextChunker.init (chunkSize? overlap? : Option Nat)
    (settingsChunkSize settingsOverlap : Nat) : TextChunkerState :=
  { chunkSize := resolveOr settingsChunkSize chunkSize?
    overlap := resolveOr settingsOverlap overlap? }

/-- Model of `Settings.validate_settings` from `src/config/settings.py`.  This method
would reject `chunk_overlap >= chunk_size`, but it is never called anywhere
in the repository (the pydantic `field_validator` is a no-op returning `v`). -/
def Settings.validateSettings (chunkOverlap chunkSize rerankTopK topKRetrieval : Nat) :
    Except String Unit :=
  if chunkSize ≤ chunkOverlap then
    Except.error ("chunk_overlap (" ++ toString chunkOverlap ++
      ") must be less than chunk_size (" ++ toString chunkSize ++ ")")
  else if topKRetrieval < rerankTopK then
    Except.error ("rerank_top_k (" ++ toString rerankTopK ++
      ") must be <= top_k_retrieval (" ++ toString topKRetrieval ++ ")")
  else Except.ok ()

/-- C5 (code bug): a chunker constructed with `overlap = chunk_size = 100` is
accepted without error — construction performs no validation, contradicting
the `validate_overlap` docstring and the (never invoked)
`Settings.validate_settings`, which would reject it.  Worse, at *split* time
`_force_split` then never terminates: the window start advances by
`chunk_size - overlap = 0`, so the loop never finishes for any amount of
fuel on a 150-character separator-free text. -/
theorem c5_overlap_not_rejected_at_construction :
    TextChunker.init (some 100) (some 100) 512 60 = { chunkSize := 100, overlap := 100 } ∧
    Settings.validateSettings 100 100 5 10 =
      Except.error "chunk_overlap (100) must be less than chunk_size (100)" ∧
    ∀ fuel : Nat, forceSplitGo 100 100 (List.replicate 150 'a') fuel 0 = none := by
  refine ⟨rfl, rfl, ?_⟩
  intro fuel
  induction fuel with
  | zero => rfl
  | succ n ih =>
    rw [forceSplitGo]
    rw [if_pos (by simp)]
    simp only [Nat.add_sub_cancel] at ih ⊢
    rw [ih]

/-! ### Chunk assembly (`TextChunker.chunk`, `chunk_document`, claims C6, C10) -/

/-- Model of `DocumentMetadata` from `src/core/models.py`.  `document_id` is generated
by `uuid.uuid4()` at every construction; the uuid supply is modelled by a
fresh-value counter (`ingested_at`, a wall-clock timestamp, is not modelled). -/
structure DocumentMetadata where
  documentId : Nat
  documentName : String
  pageNumber : Option Nat
  totalPages : Option Nat
  language : Language
  fileType : String
deriving DecidableEq, Repr

/-- Model of `DocumentChunk` from `src/core/models.py` (`chunk_id` likewise drawn from
the uuid supply; `start_char`/`end_char` are never set by the chunker and are
omitted).  pydantic enforces `min_length=1` on `content`. -/
structure DocumentChunk where
  chunkId : Nat
  content : Str
  metadata : DocumentMetadata
  chunkIndex : Nat
deriving DecidableEq, Repr

/-- The chunk-creation loop of `TextChunker.chunk` (step 3): each piece gets its
own freshly created `DocumentMetadata` (one uuid draw) and `DocumentChunk`
(another uuid draw); `none` models the pydantic `ValidationError` raised when
a piece is empty (`min_length=1`). -/
def buildChunks (language : Language) (documentName fileType : String)
    (pageNumber totalPages : Option Nat) :
    List Str → Nat → Nat → Option (List DocumentChunk × Nat)
  | [], _, ctr => some ([], ctr)
  | piece :: rest, i, ctr =>
    if piece.isEmpty then none
    else
      match buildChunks language documentName fileType pageNumber totalPages
          rest (i + 1) (ctr + 2) with
      | none => none
      | some (chunks, ctr') =>
        some (⟨ctr + 1, piece,
          ⟨ctr, documentName, pageNumber, totalPages, language, fileType⟩, i⟩ :: chunks,
          ctr')

/-- Model of `TextChunker.chunk`: empty/whitespace-only text yields no chunks; otherwise
split the text, detect the language on the first 500 characters, and build one
chunk — with its own fresh metadata — per piece. -/
def TextChunker.chunk (chunkSize overlap : Nat) (model : Str → String) (ctr : Nat)
    (text : Str) (documentName fileType : String)
    (pageNumber totalPages : Option Nat) : Option (List DocumentChunk × Nat) :=
  if (pyStrip text).isEmpty then some ([], ctr)
  else
    let pieces := splitText chunkSize overlap text
    let language := LanguageDetector.detect model (text.take 500)
    buildChunks language documentName fileType pageNumber totalPages pieces 0 ctr

/-- The page loop of `TextChunker.chunk_document`
(`enumerate(page_texts, start=1)`); page number and total pages are attached
only for file type `"pdf"`. -/
def chunkPages (chunkSize overlap : Nat) (model : Str → String)
    (documentName fileType : String) (totalPages : Nat) :
    List Str → Nat → Nat → Option (List DocumentChunk × Nat)
  | [], _, ctr => some ([], ctr)
  | t :: rest, pageNum, ctr =>
    match TextChunker.chunk chunkSize overlap model ctr t documentName fileType
        (if fileType = "pdf" then some pageNum else none)
        (if fileType = "pdf" then some totalPages else none) with
    | none => none
    | some (cs1, ctr1) =>
      match chunkPages chunkSize overlap model documentName fileType totalPages
          rest (pageNum + 1) ctr1 with
      | none => none
      | some (cs2, ctr2) => some (cs1 ++ cs2, ctr2)

/-- The global re-indexing pass at the end of `chunk_document`
(`for i, chunk in enumerate(all_chunks): chunk.chunk_index = i`). -/
def reindex : List DocumentChunk → Nat → List DocumentChunk
  | [], _ => []
  | c :: rest, i => { c with chunkIndex := i } :: reindex rest (i + 1)

/-- Model of `TextChunker.chunk_document`: chunk page by page, then re-index globally. -/
def TextChunker.chunkDocument (chunkSize overlap : Nat) (model : Str → String)
    (ctr : Nat) (pageTexts : List Str) (documentName fileType : String) :
    Option (List DocumentChunk × Nat) :=
  match chunkPages chunkSize overlap model documentName fileType
      pageTexts.length pageTexts 1 ctr with
  | none => none
  | some (all, ctr') => some (reindex all 0, ctr')

theorem reindex_length (l : List DocumentChunk) :
    ∀ i, (reindex l i).length = l.length := by
  induction l with
  | nil => intro i; rfl
  | cons c rest ih => intro i; simp [reindex, ih (i + 1)]

theorem reindex_map_chunkIndex (l : List DocumentChunk) :
    ∀ i, (reindex l i).map DocumentChunk.chunkIndex = List.range' i l.length := by
  induction l with
  | nil => intro i; rfl
  | cons c rest ih =>
    intro i
    simp only [reindex, List.map_cons, List.length_cons, List.range'_succ]
    exact congrArg (i :: ·) (ih (i + 1))

/-- C6: whenever `chunk_document` returns, the chunk indices of its output are
exactly `0, 1, ..., n-1` in output order — contiguous and increasing across
the whole document, independent of the page distribution. -/
theorem c6_chunkDocument_reindexes (chunkSize overlap : Nat) (model : Str → String)
    (ctr : Nat) (pageTexts : List Str) (documentName fileType : String)
    (chunks : List DocumentChunk) (ctr' : Nat)
    (h : TextChunker.chunkDocument chunkSize overlap model ctr pageTexts
        documentName fileType = some (chunks, ctr')) :
    chunks.map DocumentChunk.chunkIndex = List.range chunks.length := by
  unfold TextChunker.chunkDocument at h
  cases h' : chunkPages chunkSize overlap model documentName fileType
      pageTexts.length pageTexts 1 ctr with
  | none => rw [h'] at h; simp at h
  | some pr =>
    obtain ⟨all, c2⟩ := pr
    rw [h'] at h
    simp only [Option.some.injEq, Prod.mk.injEq] at h
    obtain ⟨hchunks, _⟩ := h
    subst hchunks
    rw [reindex_map_chunkIndex all 0, reindex_length all 0, List.range_eq_range']

theorem c6_chunkDocument_reindexes_witness :
    ([⟨1, pyStr "hello world", ⟨0, "doc", none, none, Language.english, "txt"⟩, 0⟩,
      ⟨3, pyStr "bye", ⟨2, "doc", none, none, Language.english, "txt"⟩, 1⟩] :
        List DocumentChunk).map DocumentChunk.chunkIndex =
      List.range ([⟨1, pyStr "hello world",
          ⟨0, "doc", none, none, Language.english, "txt"⟩, 0⟩,
        ⟨3, pyStr "bye", ⟨2, "doc", none, none, Language.english, "txt"⟩, 1⟩] :
          List DocumentChunk).length :=
  c6_chunkDocument_reindexes 512 60 (fun _ => "en") 0
    [pyStr "hello world", pyStr "bye"] "doc" "txt" _ 4 (by decide)

/-- C10 counterexample: one call of `TextChunker.chunk` on a text that splits
into three pieces creates three *distinct* `DocumentMetadata` values with
three distinct generated document identifiers (`uuid4` is drawn once per
chunk, inside the per-piece loop) — the metadata is regenerated per chunk,
not shared with one document identifier. -/
theorem c10_shared_metadata_counterexample :
    (TextChunker.chunk 5 2 (fun _ => "en") 0 (pyStr "ab cd ef\n\nxy")
        "doc" "txt" none none).map
      (fun p => p.1.map (fun c => c.metadata.documentId)) = some [0, 2, 4] ∧
    (0 : Nat) ≠ 2 :=
  ⟨by decide, by decide⟩

theorem buildChunks_ids (lang : Language) (dn ft : String) (pn tp : Option Nat) :
    ∀ (pieces : List Str) (i ctr : Nat) (chunks : List DocumentChunk) (ctr' : Nat),
      buildChunks lang dn ft pn tp pieces i ctr = some (chunks, ctr') →
      chunks.map (fun c => c.metadata.documentId) = List.range' ctr chunks.length 2 ∧
      ∀ c ∈ chunks, c.metadata.documentName = dn ∧ c.metadata.fileType = ft ∧
        c.metadata.pageNumber = pn ∧ c.metadata.totalPages = tp ∧
        c.metadata.language = lang := by
  intro pieces
  induction pieces with
  | nil =>
    intro i ctr chunks ctr' h
    simp only [buildChunks, Option.some.injEq, Prod.mk.injEq] at h
    obtain ⟨h1, _⟩ := h
    subst h1
    exact ⟨rfl, by simp⟩
  | cons p rest ih =>
    intro i ctr chunks ctr' h
    simp only [buildChunks] at h
    split at h
    · simp at h
    · cases h' : buildChunks lang dn ft pn tp rest (i + 1) (ctr + 2) with
      | none => rw [h'] at h; simp at h
      | some pr =>
        obtain ⟨tl, c2⟩ := pr
        rw [h'] at h
        simp only [Option.some.injEq, Prod.mk.injEq] at h
        obtain ⟨hchunks, _⟩ := h
        subst hchunks
        obtain ⟨ihids, ihfields⟩ := ih (i + 1) (ctr + 2) tl c2 h'
        refine ⟨?_, ?_⟩
        · simp only [List.map_cons, List.length_cons, List.range'_succ, ihids]
        · intro c hc
          rcases List.mem_cons.1 hc with rfl | hmem
          · exact ⟨rfl, rfl, rfl, rfl, rfl⟩
          · exact ihfields c hmem

/-- C10 (amended): within one `TextChunker.chunk` call each chunk carries its
*own* freshly created `DocumentMetadata`: the generated document identifiers
are consecutive fresh draws (`ctr, ctr+2, ...`), hence pairwise distinct,
while the non-generated metadata fields (document name, file type, page
number, total pages, detected language) agree across all of the document's
chunks. -/
theorem c10_fresh_metadata_per_chunk (chunkSize overlap : Nat)
    (model : Str → String) (ctr : Nat) (text : Str) (dn ft : String)
    (pn tp : Option Nat) (chunks : List DocumentChunk) (ctr' : Nat)
    (h : TextChunker.chunk chunkSize overlap model ctr text dn ft pn tp =
      some (chunks, ctr')) :
    chunks.map (fun c => c.metadata.documentId) = List.range' ctr chunks.length 2 ∧
    (chunks.map (fun c => c.metadata.documentId)).Nodup ∧
    ∀ c ∈ chunks, c.metadata.documentName = dn ∧ c.metadata.fileType = ft ∧
      c.metadata.pageNumber = pn ∧ c.metadata.totalPages = tp ∧
      c.metadata.language = LanguageDetector.detect model (text.take 500) := by
  unfold TextChunker.chunk at h
  split at h
  · simp only [Option.some.injEq, Prod.mk.injEq] at h
    obtain ⟨h1, _⟩ := h
    subst h1
    exact ⟨rfl, List.Pairwise.nil, by simp⟩
  · obtain ⟨hids, hfields⟩ := buildChunks_ids _ dn ft pn tp _ 0 ctr chunks ctr' h
    refine ⟨hids, ?_, hfields⟩
    rw [hids]
    exact List.nodup_range' ctr chunks.length 2 (by decide)

theorem c10_fresh_metadata_per_chunk_witness :
    (([⟨1, pyStr "ab cd", ⟨0, "doc", none, none, Language.english, "txt"⟩, 0⟩,
       ⟨3, pyStr "cd cd", ⟨2, "doc", none, none, Language.english, "txt"⟩, 1⟩,
       ⟨5, pyStr "ef xy", ⟨4, "doc", none, none, Language.english, "txt"⟩, 2⟩] :
         List DocumentChunk).map (fun c => c.metadata.documentId)).Nodup :=
  (c10_fresh_metadata_per_chunk 5 2 (fun _ => "en") 0 (pyStr "ab cd ef\n\nxy")
    "doc" "txt" none none _ 6 (by decide)).2.1

/-! ### Reranker (`src/retrieval/reranker.py`, claim C7) -/

/-- The `payload` dictionary carried by a search result.  Fields are `Option`s
because Python's `dict.get` (used by the generator / citation formatter)
tolerates missing keys, while direct `["..."]` indexing (used by the
reranker) raises when missing. -/
structure Payload where
  content : Option String
  documentName : Option String
  pageNumber : Option Nat
  language : Option String
  fileType : Option String
  chunkId : Option String
  chunkIndex : Option Nat
deriving DecidableEq, Repr

/-- A search-result dictionary: payload plus scores (`rerank_score` appears
only after reranking).  Float scores are modelled as exact rationals. -/
structure SearchResult where
  payload : Payload
  score : Option ℚ
  rerankScore : Option ℚ
deriving DecidableEq, Repr

/-- Step 3 of `Reranker.rerank`: map oracle `(index, score)` items back to the
original results, attaching `rerank_score`; an out-of-range index is a Python
`IndexError`, modelled as `none`. -/
def mapRerank (results : List SearchResult) : List (Nat × ℚ) → Option (List SearchResult)
  | [] => some []
  | (idx, sc) :: rest =>
    match results[idx]? with
    | none => none
    | some r =>
      match mapRerank results rest with
      | none => none
      | some tl => some ({ r with rerankScore := some sc } :: tl)

/-- Model of `Reranker.rerank`.  `oracle` is the external Cohere scoring oracle
(`provider.rerank(query, documents)` returning `(index, score)` pairs);
`defaultTopK` is `settings.rerank_top_k`, combined with the `top_k` argument
by Python `or`-coalescing.  Missing `payload["content"]` is a `KeyError`
(`none`). -/
def Reranker.rerank (oracle : String → List String → List (Nat × ℚ))
    (defaultTopK : Nat) (query : String) (results : List SearchResult)
    (topK? : Option Nat) : Option (List SearchResult) :=
  let topK := resolveOr defaultTopK topK?
  if results.isEmpty then some []
  else if results.length ≤ topK then some results
  else
    match results.mapM (fun r => r.payload.content) with
    | none => none
    | some documents => mapRerank results ((oracle query documents).take topK)

/-- C7: a non-empty candidate list of length at most (the resolved) `top_k` is
returned unchanged, in its original order, for *every* scoring oracle — the
oracle is never consulted. -/
theorem c7_rerank_small_unchanged (oracle : String → List String → List (Nat × ℚ))
    (defaultTopK : Nat) (query : String) (results : List SearchResult)
    (topK? : Option Nat) (hne : results ≠ [])
    (hlen : results.length ≤ resolveOr defaultTopK topK?) :
    Reranker.rerank oracle defaultTopK query results topK? = some results := by
  unfold Reranker.rerank
  rw [if_neg (by simp [List.isEmpty_iff, hne]), if_pos hlen]

theorem c7_rerank_small_unchanged_witness :
    ([(⟨⟨some "x", none, none, none, none, none, none⟩, some (1 / 2), none⟩ :
        SearchResult)] ≠ []) ∧
    Reranker.rerank (fun _ _ => []) 5 "q"
        [⟨⟨some "x", none, none, none, none, none, none⟩, some (1 / 2), none⟩]
        (some 5) =
      some [⟨⟨some "x", none, none, none, none, none, none⟩, some (1 / 2), none⟩] :=
  ⟨by decide, c7_rerank_small_unchanged (fun _ _ => []) 5 "q"
    [⟨⟨some "x", none, none, none, none, none, none⟩, some (1 / 2), none⟩]
    (some 5) (by decide) (by decide)⟩

/-! ### Answer generation (`src/generation/*.py`, claim C9) -/

/-- A chat-history message as passed to the provider. -/
structure ChatMsg where
  role : String
  content : String
deriving DecidableEq, Repr

/-- Model of `Language(value)` — the pydantic/enum constructor; raises (`none`) for a
string that is not a member value. -/
def Language.ofString : String → Option Language
  | "en" => some Language.english
  | "ar" => some Language.arabic
  | "unknown" => some Language.unknown
  | _ => none

/-- Model of `NO_ANSWER_ENGLISH` from `src/generation/prompts.py`. -/
def noAnswerEnglish : String :=
  "I don\x27t have information about that in the uploaded documents."

/-- Model of `NO_ANSWER_ARABIC` from `src/generation/prompts.py`. -/
def noAnswerArabic : String :=
  "لا تتوفر لدي معلومات حول ذلك في المستندات المرفوعة."

/-- Model of `get_no_answer_message`. -/
def getNoAnswerMessage (language : String) : String :=
  if language = "ar" then noAnswerArabic else noAnswerEnglish

/-- Model of `ENGLISH_SYSTEM_PROMPT` up to its trailing `.format(context=...)` slot
(the template ends with the context, so formatting is concatenation). -/
def englishSystemPromptPre : String :=
  "You are a helpful assistant that answers questions based on the provided documents.\n\nRULES:\n1. Answer ONLY using the information in the CONTEXT below\n2. If the answer is not in the context, say \"I don\x27t have information about that in the documents\"\n3. Be clear and concise\n4. When citing sources, mention page numbers like [Page 1] or [Page 2]\n5. Always respond in English\n\nCONTEXT:\n"

/-- Model of `ARABIC_SYSTEM_PROMPT` up to its trailing `.format(context=...)` slot. -/
def arabicSystemPromptPre : String :=
  "أنت مساعد مفيد يجيب على الأسئلة بناءً على المستندات المقدمة.\n\nالقواعد:\n1. أجب فقط باستخدام المعلومات الموجودة في السياق أدناه\n2. إذا لم تكن الإجابة موجودة في السياق، قل \"لا تتوفر لدي معلومات حول ذلك في المستندات\"\n3. كن واضحاً ومختصراً\n4. عند الاستشهاد بالمصادر، اذكر أرقام الصفحات مثل [صفحة 1] أو [صفحة 2]\n5. أجب دائماً باللغة العربية\n\nالسياق:\n"

/-- Model of `get_system_prompt`. -/
def getSystemPrompt (language context : String) : String :=
  if language = "ar" then arabicSystemPromptPre ++ context
  else englishSystemPromptPre ++ context

/-- The enumeration loop shared by `CitationFormatter.format_context` and
`format_context_arabic` (`enumerate(results, start=1)`), producing the
per-result context lines and source lines.  Note Python's `if page_num:`
treats page `0` and `None` alike (no page suffix). -/
def formatRows (arabic : Bool) : List SearchResult → Nat → List String × List String
  | [], _ => ([], [])
  | r :: rest, i =>
    let content := r.payload.content.getD ""
    let docName := r.payload.documentName.getD "Unknown"
    let ctx := "[" ++ toString i ++ "] " ++ content
    let src :=
      match r.payload.pageNumber with
      | some p =>
        if p ≠ 0 then
          if arabic then
            "[" ++ toString i ++ "] " ++ docName ++ "، صفحة " ++ toString p
          else
            "[" ++ toString i ++ "] " ++ docName ++ ", Page " ++ toString p
        else "[" ++ toString i ++ "] " ++ docName
      | none => "[" ++ toString i ++ "] " ++ docName
    let tl := formatRows arabic rest (i + 1)
    (ctx :: tl.1, src :: tl.2)

/-- Model of `CitationFormatter.format_context`. -/
def formatContext (results : List SearchResult) : String × String :=
  if results.isEmpty then ("", "")
  else
    let rows := formatRows false results 1
    (String.intercalate "\n\n" rows.1, "Sources:\n" ++ String.intercalate "\n" rows.2)

/-- Model of `CitationFormatter.format_context_arabic`. -/
def formatContextArabic (results : List SearchResult) : String × String :=
  if results.isEmpty then ("", "")
  else
    let rows := formatRows true results 1
    (String.intercalate "\n\n" rows.1,
      "المصادر:\n" ++ String.intercalate "\n" rows.2)

/-- Model of `CitationFormatter.add_sources_to_answer`. -/
def addSourcesToAnswer (answer sources _language : String) : String :=
  if sources = "" then answer else answer ++ "\n\n---\n\n" ++ sources

/-- Model of `DocumentChunk` as rebuilt by `_convert_to_retrieved_chunks` from a stored
payload (there `chunk_id` is the payload's string, not a fresh uuid). -/
structure GenDocumentChunk where
  chunkId : String
  content : String
  metadata : DocumentMetadata
  chunkIndex : Nat
deriving DecidableEq, Repr

/-- Model of `RetrievedChunk` from `src/core/models.py`: pydantic constrains
`score` to `[0, 1]` and `rank >= 1`. -/
structure RetrievedChunk where
  chunk : GenDocumentChunk
  score : ℚ
  rank : Nat
  retrievalMethod : String
deriving DecidableEq, Repr

/-- One iteration of `_convert_to_retrieved_chunks`: rebuild metadata (drawing
a fresh uuid for its `document_id`) and chunk from the payload; `none` models
the pydantic `ValidationError`s (unknown language value, empty content,
score outside `[0, 1]`). -/
def convertOne (ctr i : Nat) (r : SearchResult) : Option RetrievedChunk :=
  match Language.ofString (r.payload.language.getD "en") with
  | none => none
  | some lang =>
    let content := r.payload.content.getD ""
    if content = "" then none
    else
      let score := r.rerankScore.getD (r.score.getD 0)
      if 0 ≤ score ∧ score ≤ 1 then
        some ⟨⟨r.payload.chunkId.getD "", content,
          ⟨ctr, r.payload.documentName.getD "Unknown", r.payload.pageNumber,
            none, lang, r.payload.fileType.getD "unknown"⟩,
          r.payload.chunkIndex.getD 0⟩, score, i + 1, "hybrid"⟩
      else none

/-- The loop of `_convert_to_retrieved_chunks`, threading the uuid counter. -/
def convertGo : List SearchResult → Nat → Nat → Option (List RetrievedChunk × Nat)
  | [], _, ctr => some ([], ctr)
  | r :: rest, i, ctr =>
    match convertOne ctr i r with
    | none => none
    | some rc =>
      match convertGo rest (i + 1) (ctr + 1) with
      | none => none
      | some (tl, ctr') => some (rc :: tl, ctr')

/-- Model of `GenerationResult` (generation time, a wall-clock value, not modelled). -/
structure GenerationResult where
  answer : String
  sources : List RetrievedChunk
  language : Language
  hasAnswer : Bool
deriving DecidableEq, Repr

/-- Model of `ResponseGenerator.generate`.  `oracle` is the external LLM
(`provider.generate_text(prompt, context, chat_history)`); `ctr` is the uuid
supply.  An empty result list short-circuits to the fixed no-answer message
before any formatting, generation, or conversion happens. -/
def ResponseGenerator.generate (oracle : String → String → List ChatMsg → String)
    (ctr : Nat) (query : String) (results : List SearchResult)
    (language : String) (chatHistory : List ChatMsg) : Option GenerationResult :=
  if results.isEmpty then
    match Language.ofString language with
    | none => none
    | some lang => some ⟨getNoAnswerMessage language, [], lang, false⟩
  else
    let rows := if language = "ar" then formatContextArabic results
      else formatContext results
    let systemPrompt := getSystemPrompt language rows.1
    let answer := oracle query systemPrompt chatHistory
    let fullAnswer := addSourcesToAnswer answer rows.2 language
    match convertGo results 0 ctr with
    | none => none
    | some (sourceChunks, _) =>
      match Language.ofString language with
      | none => none
      | some lang => some ⟨fullAnswer, sourceChunks, lang, true⟩

/-- C9: with an empty candidate list, generation is skipped (the result is the
same for every oracle) and the result is the fixed no-answer message in the
requested language, `has_answer = false`, and no sources. -/
theorem c9_empty_results_no_answer (oracle : String → String → List ChatMsg → String)
    (ctr : Nat) (query : String) (language : String) (history : List ChatMsg)
    (h : language = "en" ∨ language = "ar") :
    ResponseGenerator.generate oracle ctr query [] language history =
      some ⟨getNoAnswerMessage language, [],
        if language = "ar" then Language.arabic else Language.english, false⟩ := by
  rcases h with rfl | rfl <;> rfl

theorem c9_empty_results_no_answer_witness :
    ResponseGenerator.generate (fun _ _ _ => "LLM SAYS") 0 "q" [] "ar" [] =
      some ⟨getNoAnswerMessage "ar", [],
        if ("ar" : String) = "ar" then Language.arabic else Language.english,
        false⟩ :=
  c9_empty_results_no_answer (fun _ _ _ => "LLM SAYS") 0 "q" "ar" [] (Or.inr rfl)

/-! ### Reciprocal Rank Fusion (claim C3)

Modelled from the spec (§4.4): the active `HybridSearcher.search` delegates
fusion to the external vector store's native RRF operator
(`vector_store.search_hybrid`), so the fusion formula itself is not executed
by in-repo code; the local implementation `_rrf_fusion` present in
`src/retrieval/hybrid_search.py` is commented out.  The model below follows
the spec's formula `score = weight/(k + rank)` with `k = 60`,
`sparse_weight = 1 - dense_weight` (which coincides with the commented-out
local implementation); float weights are modelled as exact rationals, and a
ranked list is a list of candidate identifiers in rank order (1-based ranks,
identifiers distinct within one list). -/

/-- The 1-based rank scan of a ranked list. -/
def rankOfAux (id : Nat) : List Nat → Nat → Option Nat
  | [], _ => none
  | x :: rest, r => if x = id then some r else rankOfAux id rest (r + 1)

/-- Model of `rank_in_list`, starting from rank 1 as in `enumerate(results, start=1)`;
`none` when the candidate is absent from the list. -/
def rankOf (l : List Nat) (id : Nat) : Option Nat := rankOfAux id l 1

/-- The RRF fused score of one candidate: contribution `weight / (60 + rank)`
from each list containing it, zero from a list that does not. -/
def rrfScore (dense sparse : List Nat) (dw : ℚ) (id : Nat) : ℚ :=
  (match rankOf dense id with
    | some r => dw / (60 + (r : ℚ))
    | none => 0) +
  (match rankOf sparse id with
    | some r => (1 - dw) / (60 + (r : ℚ))
    | none => 0)

/-- Candidate-id accumulation in first-seen order (the insertion order of the
`scores` dict: dense ids first, then new sparse ids). -/
def fusionKeysAux (acc : List Nat) : List Nat → List Nat
  | [] => acc
  | x :: xs => fusionKeysAux (if x ∈ acc then acc else acc ++ [x]) xs

/-- Stable descending insertion: `x` goes before the first element whose score
it beats or ties with (so equal scores keep the earlier-inserted element
first, like Python's stable `sorted(..., reverse=True)`). -/
def insertDesc (score : Nat → ℚ) (x : Nat) : List Nat → List Nat
  | [] => [x]
  | y :: ys => if score y ≤ score x then x :: y :: ys else y :: insertDesc score x ys

/-- Stable sort by descending score. -/
def sortDesc (score : Nat → ℚ) : List Nat → List Nat
  | [] => []
  | x :: xs => insertDesc score x (sortDesc score xs)

/-- The fused ranking: all candidates of either list, sorted by descending
fused score, truncated to `top_k`. -/
def rrfFusion (dense sparse : List Nat) (dw : ℚ) (topK : Nat) : List Nat :=
  (sortDesc (rrfScore dense sparse dw) (fusionKeysAux [] (dense ++ sparse))).take topK

theorem rrfScore_some_some (dense sparse : List Nat) (dw : ℚ) (id rd rs : Nat)
    (h1 : rankOf dense id = some rd) (h2 : rankOf sparse id = some rs) :
    rrfScore dense sparse dw id = dw / (60 + (rd : ℚ)) + (1 - dw) / (60 + (rs : ℚ)) := by
  simp [rrfScore, h1, h2]

theorem rrfScore_some_none (dense sparse : List Nat) (dw : ℚ) (id rd : Nat)
    (h1 : rankOf dense id = some rd) (h2 : rankOf sparse id = none) :
    rrfScore dense sparse dw id = dw / (60 + (rd : ℚ)) := by
  simp [rrfScore, h1, h2]

theorem rrfScore_none_some (dense sparse : List Nat) (dw : ℚ) (id rs : Nat)
    (h1 : rankOf dense id = none) (h2 : rankOf sparse id = some rs) :
    rrfScore dense sparse dw id = (1 - dw) / (60 + (rs : ℚ)) := by
  simp [rrfScore, h1, h2]

theorem rrfScore_none_none (dense sparse : List Nat) (dw : ℚ) (id : Nat)
    (h1 : rankOf dense id = none) (h2 : rankOf sparse id = none) :
    rrfScore dense sparse dw id = 0 := by
  simp [rrfScore, h1, h2]

theorem rankOfAux_ge (id : Nat) :
    ∀ (l : List Nat) (r s : Nat), rankOfAux id l r = some s → r ≤ s := by
  intro l
  induction l with
  | nil => intro r s h; simp [rankOfAux] at h
  | cons x rest ih =>
    intro r s h
    simp only [rankOfAux] at h
    split at h
    · simp only [Option.some.injEq] at h; omega
    · have := ih (r + 1) s h; omega

theorem rankOf_head (c : Nat) (tl : List Nat) : rankOf (c :: tl) c = some 1 := by
  simp [rankOf, rankOfAux]

theorem rankOf_cons_ne_ge (c d : Nat) (tl : List Nat) (s : Nat) (hne : d ≠ c)
    (h : rankOf (c :: tl) d = some s) : 2 ≤ s := by
  simp only [rankOf, rankOfAux] at h
  rw [if_neg (fun h' => hne h'.symm)] at h
  have := rankOfAux_ge d tl (1 + 1) s h
  omega

theorem mem_insertDesc (score : Nat → ℚ) (x : Nat) :
    ∀ (l : List Nat) (a : Nat), a ∈ insertDesc score x l ↔ a = x ∨ a ∈ l := by
  intro l
  induction l with
  | nil => intro a; simp [insertDesc]
  | cons y ys ih =>
    intro a
    simp only [insertDesc]
    split
    · simp
    · simp only [List.mem_cons, ih a]
      tauto

theorem mem_sortDesc (score : Nat → ℚ) :
    ∀ (l : List Nat) (a : Nat), a ∈ sortDesc score l ↔ a ∈ l := by
  intro l
  induction l with
  | nil => intro a; simp [sortDesc]
  | cons x xs ih =>
    intro a
    simp only [sortDesc, mem_insertDesc, List.mem_cons, ih a]

theorem sortDesc_head_max (score : Nat → ℚ) :
    ∀ (l : List Nat) (h : Nat), (sortDesc score l).head? = some h →
      ∀ y ∈ l, score y ≤ score h := by
  intro l
  induction l with
  | nil => intro h hh; simp [sortDesc] at hh
  | cons x xs ih =>
    intro h hh y hy
    simp only [sortDesc] at hh
    cases hs : sortDesc score xs with
    | nil =>
      rw [hs] at hh
      simp only [insertDesc, List.head?_cons, Option.some.injEq] at hh
      subst hh
      rcases List.mem_cons.1 hy with rfl | hmem
      · exact le_refl _
      · have : y ∈ sortDesc score xs := (mem_sortDesc score xs y).2 hmem
        rw [hs] at this
        simp at this
    | cons z zs =>
      rw [hs] at hh
      simp only [insertDesc] at hh
      split at hh
      · simp only [List.head?_cons, Option.some.injEq] at hh
        subst hh
        rcases List.mem_cons.1 hy with rfl | hmem
        · exact le_refl _
        · have hz := ih z (by rw [hs]; rfl) y hmem
          exact le_trans hz (by assumption)
      · simp only [List.head?_cons, Option.some.injEq] at hh
        subst hh
        rcases List.mem_cons.1 hy with rfl | hmem
        · exact le_of_lt (lt_of_not_le (by assumption))
        · exact ih z (by rw [hs]; rfl) y hmem

theorem mem_fusionKeysAux :
    ∀ (l acc : List Nat) (a : Nat), a ∈ fusionKeysAux acc l ↔ a ∈ acc ∨ a ∈ l := by
  intro l
  induction l with
  | nil => intro acc a; simp [fusionKeysAux]
  | cons x xs ih =>
    intro acc a
    simp only [fusionKeysAux]
    rw [ih]
    split
    · rename_i hx
      simp only [List.mem_cons]
      constructor
      · rintro (h | h)
        · exact Or.inl h
        · exact Or.inr (Or.inr h)
      · rintro (h | rfl | h)
        · exact Or.inl h
        · exact Or.inl hx
        · exact Or.inr h
    · simp only [List.mem_append, List.mem_singleton, List.mem_cons]
      tauto

theorem take_head? (k : Nat) (hk : 1 ≤ k) :
    ∀ (l : List Nat), (l.take k).head? = l.head? := by
  intro l
  cases l with
  | nil => simp
  | cons x xs =>
    match k, hk with
    | m + 1, _ => simp [List.take]

/-- Any candidate other than the one at rank 1 of both lists scores strictly
below it: its rank in each list, if any, is at least 2. -/
theorem rrfScore_other_lt (dense sparse : List Nat) (dw : ℚ)
    (h0 : 0 < dw) (h1 : dw < 1) (c d : Nat)
    (hd : dense.head? = some c) (hs : sparse.head? = some c) (hne : d ≠ c) :
    rrfScore dense sparse dw d < rrfScore dense sparse dw c := by
  cases dense with
  | nil => simp at hd
  | cons x dtl =>
    cases sparse with
    | nil => simp at hs
    | cons y stl =>
      simp only [List.head?_cons, Option.some.injEq] at hd hs
      rw [hd, hs]
      rw [rrfScore_some_some _ _ dw c 1 1 (rankOf_head c dtl) (rankOf_head c stl)]
      have hc : dw / (60 + ((1 : Nat) : ℚ)) + (1 - dw) / (60 + ((1 : Nat) : ℚ)) = 1 / 61 := by
        push_cast
        ring
      rw [hc]
      have hboundA : ∀ rd : Nat, 2 ≤ rd → dw / (60 + (rd : ℚ)) ≤ dw / 62 := by
        intro rd hrd
        have : (62 : ℚ) ≤ 60 + (rd : ℚ) := by
          have : (2 : ℚ) ≤ (rd : ℚ) := by exact_mod_cast hrd
          linarith
        exact div_le_div_of_nonneg_left (le_of_lt h0) (by norm_num) this
      have hboundB : ∀ rs : Nat, 2 ≤ rs → (1 - dw) / (60 + (rs : ℚ)) ≤ (1 - dw) / 62 := by
        intro rs hrs
        have : (62 : ℚ) ≤ 60 + (rs : ℚ) := by
          have : (2 : ℚ) ≤ (rs : ℚ) := by exact_mod_cast hrs
          linarith
        exact div_le_div_of_nonneg_left (by linarith) (by norm_num) this
      have hkey : rrfScore (c :: dtl) (c :: stl) dw d ≤ 1 / 62 := by
        have hsplit : dw / 62 + (1 - dw) / 62 = 1 / 62 := by ring
        cases hA : rankOf (c :: dtl) d with
        | none =>
          cases hB : rankOf (c :: stl) d with
          | none =>
            rw [rrfScore_none_none _ _ dw d hA hB]
            norm_num
          | some rs =>
            rw [rrfScore_none_some _ _ dw d rs hA hB]
            have h2 := hboundB rs (rankOf_cons_ne_ge c d stl rs hne hB)
            have hApos : (0 : ℚ) ≤ dw / 62 := by positivity
            linarith
        | some rd =>
          have hA2 := hboundA rd (rankOf_cons_ne_ge c d dtl rd hne hA)
          cases hB : rankOf (c :: stl) d with
          | none =>
            rw [rrfScore_some_none _ _ dw d rd hA hB]
            have hBpos : (0 : ℚ) ≤ (1 - dw) / 62 := by
              have : (0 : ℚ) ≤ 1 - dw := by linarith
              positivity
            linarith
          | some rs =>
            rw [rrfScore_some_some _ _ dw d rd rs hA hB]
            have hB2 := hboundB rs (rankOf_cons_ne_ge c d stl rs hne hB)
            linarith
      have : (1 : ℚ) / 62 < 1 / 61 := by norm_num
      linarith

/-- C3: for any `dense_weight` strictly between 0 and 1, (a) a candidate at
rank `r` in *both* lists scores strictly higher than a candidate at the same
rank `r` in only one of them, and (b) a candidate at rank 1 in both lists is
rank 1 (the head) of the fused output. -/
theorem c3_rrf_both_beats_single (dw : ℚ) (h0 : 0 < dw) (h1 : dw < 1) :
    (∀ (dense sparse : List Nat) (c d r : Nat),
      rankOf dense c = some r → rankOf sparse c = some r →
      ((rankOf dense d = some r ∧ rankOf sparse d = none) ∨
        (rankOf dense d = none ∧ rankOf sparse d = some r)) →
      rrfScore dense sparse dw d < rrfScore dense sparse dw c) ∧
    (∀ (dense sparse : List Nat) (c : Nat) (topK : Nat),
      dense.head? = some c → sparse.head? = some c → 1 ≤ topK →
      (rrfFusion dense sparse dw topK).head? = some c) := by
  constructor
  · intro dense sparse c d r hdc hsc hd
    have hr0 : (0 : ℚ) < 60 + (r : ℚ) := by positivity
    rw [rrfScore_some_some dense sparse dw c r r hdc hsc]
    rcases hd with ⟨hd1, hd2⟩ | ⟨hd1, hd2⟩
    · rw [rrfScore_some_none dense sparse dw d r hd1 hd2]
      have : 0 < (1 - dw) / (60 + (r : ℚ)) := div_pos (by linarith) hr0
      linarith
    · rw [rrfScore_none_some dense sparse dw d r hd1 hd2]
      have : 0 < dw / (60 + (r : ℚ)) := div_pos h0 hr0
      linarith
  · intro dense sparse c topK hd hs htop
    unfold rrfFusion
    rw [take_head? topK htop]
    have hcdense : c ∈ dense := by
      cases dense with
      | nil => simp at hd
      | cons x dtl =>
        simp only [List.head?_cons, Option.some.injEq] at hd
        subst hd
        exact List.mem_cons_self _ _
    have hckeys : c ∈ fusionKeysAux [] (dense ++ sparse) :=
      (mem_fusionKeysAux (dense ++ sparse) [] c).2
        (Or.inr (List.mem_append.2 (Or.inl hcdense)))
    have hcsort : c ∈ sortDesc (rrfScore dense sparse dw)
        (fusionKeysAux [] (dense ++ sparse)) :=
      (mem_sortDesc _ _ c).2 hckeys
    cases hsort : sortDesc (rrfScore dense sparse dw)
        (fusionKeysAux [] (dense ++ sparse)) with
    | nil => rw [hsort] at hcsort; simp at hcsort
    | cons h t =>
      by_cases hhc : h = c
      · subst hhc; simp
      · exfalso
        have hmax := sortDesc_head_max (rrfScore dense sparse dw)
          (fusionKeysAux [] (dense ++ sparse)) h (by rw [hsort]; rfl) c hckeys
        have hlt := rrfScore_other_lt dense sparse dw h0 h1 c h hd hs hhc
        linarith

theorem c3_rrf_both_beats_single_witness :
    (0 : ℚ) < 1 / 2 ∧ (1 : ℚ) / 2 < 1 ∧
      (rrfFusion [1, 2] [1, 3] (1 / 2) 2).head? = some 1 :=
  ⟨by norm_num, by norm_num,
    (c3_rrf_both_beats_single (1 / 2) (by norm_num) (by norm_num)).2
      [1, 2] [1, 3] 1 2 rfl rfl (by norm_num)⟩

end RagSpec
